import Mathlib

/-!
Verification of the hd-canvas HDR pixel-buffer pipeline.

The development shallowly embeds the core of the library:
* `ColorBuffer` (src/core/ColorBuffer.ts): float RGBA storage with checked and
  unchecked pixel and row operations.  Channel values are modelled as exact
  rationals (`ℚ`); the Float32/Float64 storage width is carried as an inert
  `depth` field, since both widths store and return the written value and the
  properties at issue concern control flow and exact arithmetic, not binary
  rounding of individual stores.
* `ToneMapperQ` (src/export/ToneMapper.ts): the exposure → tone-map → gamma →
  quantize pipeline.  `Math.pow (·, invGamma)` and `Math.pow 2 exposure` are
  abstracted as a function field `gpow` and a factor `exposureMul`; for the
  exactly representable configurations used below (`gamma = 1/g` with integral
  `g`, integral exposure stops) this agrees with the source semantics.
* PNG chunk construction and injection (src/export/PNGExporter.ts), byte-exact
  over `List ℕ`, including the CRC-32 lookup table.
* the export pipeline (src/export/ExportPipeline.ts), with the external
  `fast-png` encoder abstracted as a function parameter and the progress
  emissions and the bit depths handed to the encoder recorded in the result so
  that trace properties can be stated.
-/

namespace HD

/-- Math.round for nonnegative and negative arguments alike:
JavaScript rounds half toward positive infinity. -/
def jsRound (q : ℚ) : ℤ := ⌊q + 1/2⌋

/-- The clamp `v < 0 ? 0 : v > 1 ? 1 : v`, used both as the `clamp` tone-map
algorithm (ToneMapper.ts lines 27–29) and as the inline clamping expressions in
`quantize` and `map`. -/
def clamp01 (v : ℚ) : ℚ := if v < 0 then 0 else if 1 < v then 1 else v

/-- Round a rational to the nearest integer, ties to even (the IEEE-754
default rounding). -/
def roundHalfEven (q : ℚ) : ℤ :=
  let f := ⌊q⌋
  let r := q - f
  if r < 1/2 then f
  else if 1/2 < r then f + 1
  else if f % 2 = 0 then f else f + 1

/-- Round a rational to the nearest IEEE-754 binary32 value: round to nearest,
ties to even, 24-bit significand.  The exponent is left unbounded, which
agrees with binary32 on the whole normal range (no overflow or subnormal
handling); every value appearing in this development is normal.  This models
what storing a JS number into a `Float32Array` element does. -/
def fl32 (q : ℚ) : ℚ :=
  if q = 0 then 0
  else
    (roundHalfEven (q * 2 ^ (23 - Int.log 2 |q|)) : ℚ) * 2 ^ (Int.log 2 |q| - 23)

/-- The channel-width store conversion of ColorBuffer: a `Float32Array` store
rounds the incoming binary64 value to binary32, a `Float64Array` store is the
identity (the incoming JS number is already binary64, which the exact
rationals of this model are a superset of). -/
def storeVal (depth : ℕ) (v : ℚ) : ℚ := if depth = 32 then fl32 v else v

/-- Blend modes of ColorBuffer.ts. -/
inductive BlendMode
  | normal
  | add
  | multiply
deriving DecidableEq, Repr

/-- ColorBuffer: `width`, `height`, the Float32/Float64 tag `depth` (32 or
64) and row-major RGBA `data`.  Channel values are rationals; a write into a
depth-32 buffer rounds through `storeVal` (binary32), a write into a depth-64
buffer stores the incoming value (a JS number is already binary64). -/
structure ColorBuffer where
  width : ℕ
  height : ℕ
  depth : ℕ
  data : List ℚ
deriving DecidableEq, Repr

/-- `new ColorBuffer(width, height, depth)`: positive dimensions required,
storage zero-initialised.  (Non-integer dimensions are outside the `ℕ` model.) -/
def ColorBuffer.create (width height depth : ℕ) : Option ColorBuffer :=
  if width = 0 ∨ height = 0 then none
  else some ⟨width, height, depth, List.replicate (width * height * 4) 0⟩

/-- The mode-dependent RGB combination of `blendPixel` (the `switch (mode)`). -/
def blendedRGB (mode : BlendMode) (dstR dstG dstB r g b : ℚ) : ℚ × ℚ × ℚ :=
  match mode with
  | .normal => (r, g, b)
  | .add => (dstR + r, dstG + g, dstB + b)
  | .multiply => (dstR * r, dstG * g, dstB * b)

/-- The shared per-pixel blend body at flat index `i` (the source repeats this
block verbatim in `blendPixel`, `blendPixelUnchecked` and `blendRowUnchecked`):
read the destination, combine RGB by mode, composite alpha src-over-dst, and
write back, with the `outA === 0` branch zeroing the pixel (storing the
literal 0 is exact at both channel widths).  `st` is the channel-width store
conversion (`storeVal depth` of the owning buffer) applied to every written
value.  The intermediate arithmetic is exact rational where the source
computes in binary64; every blend theorem below is therefore stated on a
domain where binary64 evaluation agrees with the exact result — either both
compared paths execute the identical operations on identical state, or the
operations are multiplications by 0 and 1 and a division by 1.  Signed zeros
are identified. -/
def blendAt (st : ℚ → ℚ) (mode : BlendMode) (data : List ℚ) (i : ℕ)
    (r g b a : ℚ) : List ℚ :=
  let dstR := data.getD i 0
  let dstG := data.getD (i+1) 0
  let dstB := data.getD (i+2) 0
  let dstA := data.getD (i+3) 0
  let blended := blendedRGB mode dstR dstG dstB r g b
  let outA := a + dstA * (1 - a)
  if outA = 0 then
    ((((data.set i 0).set (i+1) 0).set (i+2) 0).set (i+3) 0)
  else
    ((((data.set i (st ((blended.1 * a + dstR * dstA * (1 - a)) / outA))).set
        (i+1) (st ((blended.2.1 * a + dstG * dstA * (1 - a)) / outA))).set
        (i+2) (st ((blended.2.2 * a + dstB * dstA * (1 - a)) / outA))).set
        (i+3) (st outA))

/-- `setPixelUnchecked`: write four channels at `(y*width + x)*4`, no check;
each store goes through the channel-width conversion. -/
def ColorBuffer.setPixelUnchecked (buf : ColorBuffer) (x y : ℕ) (r g b a : ℚ) :
    ColorBuffer :=
  let st := storeVal buf.depth
  let i := (y * buf.width + x) * 4
  { buf with data :=
      ((((buf.data.set i (st r)).set (i+1) (st g)).set (i+2) (st b)).set
        (i+3) (st a)) }

/-- Checked `setPixel`: the `offset` bounds check, then the same writes. -/
def ColorBuffer.setPixel (buf : ColorBuffer) (x y : ℕ) (r g b a : ℚ) :
    Option ColorBuffer :=
  if x < buf.width ∧ y < buf.height then some (buf.setPixelUnchecked x y r g b a)
  else none

/-- Checked `getPixel`. -/
def ColorBuffer.getPixel (buf : ColorBuffer) (x y : ℕ) : Option (ℚ × ℚ × ℚ × ℚ) :=
  if x < buf.width ∧ y < buf.height then
    let i := (y * buf.width + x) * 4
    some (buf.data.getD i 0, buf.data.getD (i+1) 0,
          buf.data.getD (i+2) 0, buf.data.getD (i+3) 0)
  else none

/-- Checked `blendPixel`. -/
def ColorBuffer.blendPixel (buf : ColorBuffer) (x y : ℕ) (r g b a : ℚ)
    (mode : BlendMode) : Option ColorBuffer :=
  if x < buf.width ∧ y < buf.height then
    some { buf with
      data := blendAt (storeVal buf.depth) mode buf.data
                ((y * buf.width + x) * 4) r g b a }
  else none

/-- `blendPixelUnchecked`: the same body without the bounds check. -/
def ColorBuffer.blendPixelUnchecked (buf : ColorBuffer) (x y : ℕ) (r g b a : ℚ)
    (mode : BlendMode) : ColorBuffer :=
  { buf with
    data := blendAt (storeVal buf.depth) mode buf.data
              ((y * buf.width + x) * 4) r g b a }

/-- The loop body of `blendRowUnchecked`: `n` pixels remaining, source pixel
index `srcP`, destination flat index `dstIdx`.  A source pixel whose alpha is
exactly 0 is skipped. -/
def blendRowLoop (st : ℚ → ℚ) (mode : BlendMode) (floats : List ℚ) :
    ℕ → ℕ → ℕ → List ℚ → List ℚ
  | 0, _, _, data => data
  | n+1, srcP, dstIdx, data =>
    let a := floats.getD (srcP * 4 + 3) 0
    if a = 0 then
      blendRowLoop st mode floats n (srcP + 1) (dstIdx + 4) data
    else
      blendRowLoop st mode floats n (srcP + 1) (dstIdx + 4)
        (blendAt st mode data dstIdx (floats.getD (srcP * 4) 0)
          (floats.getD (srcP * 4 + 1) 0) (floats.getD (srcP * 4 + 2) 0) a)

/-- `blendRowUnchecked(y, startX, pixelCount, floats, mode)`. -/
def ColorBuffer.blendRowUnchecked (buf : ColorBuffer) (y startX pixelCount : ℕ)
    (floats : List ℚ) (mode : BlendMode) : ColorBuffer :=
  { buf with
    data := blendRowLoop (storeVal buf.depth) mode floats pixelCount 0
              ((y * buf.width + startX) * 4) buf.data }

/-- The pixel at flat index `i` has stored alpha exactly 1 and stored channel
values that are fixed points of the channel-width store — as every value read
back from the backing typed array is. -/
def alphaOneStored (depth : ℕ) (data : List ℚ) (i : ℕ) : Prop :=
  data.getD (i+3) 0 = 1 ∧
  storeVal depth (data.getD i 0) = data.getD i 0 ∧
  storeVal depth (data.getD (i+1) 0) = data.getD (i+1) 0 ∧
  storeVal depth (data.getD (i+2) 0) = data.getD (i+2) 0

/-- The equivalent sequence of checked `blendPixel` calls over a row: pixel `p`
of the float row is blended at `(startX + p, y)`, left to right.  `none`
propagates a bounds failure of any call in the sequence. -/
def blendPixelSeq (mode : BlendMode) (floats : List ℚ) (y : ℕ) :
    ℕ → ℕ → ℕ → ColorBuffer → Option ColorBuffer
  | 0, _, _, buf => some buf
  | n+1, srcP, x, buf =>
    (buf.blendPixel x y (floats.getD (srcP * 4) 0) (floats.getD (srcP * 4 + 1) 0)
        (floats.getD (srcP * 4 + 2) 0) (floats.getD (srcP * 4 + 3) 0) mode).bind
      (fun buf2 => blendPixelSeq mode floats y n (srcP + 1) (x + 1) buf2)

/-! ## ToneMapper (src/export/ToneMapper.ts) -/

/-- `reinhard(v) = v / (1 + v)`, negative inputs to 0. -/
def reinhardQ (v : ℚ) : ℚ := if v < 0 then 0 else v / (1 + v)

/-- `aces(v)`: the Narkowicz filmic fit, negative inputs to 0, output clamped. -/
def acesQ (v : ℚ) : ℚ :=
  if v < 0 then 0
  else
    let fa : ℚ := 251/100
    let fb : ℚ := 3/100
    let fc : ℚ := 243/100
    let fd : ℚ := 59/100
    let fe : ℚ := 7/50
    let mapped := (v * (fa * v + fb)) / (v * (fc * v + fd) + fe)
    if mapped < 0 then 0 else if 1 < mapped then 1 else mapped

/-- `TONE_MAP_ALGORITHMS` lookup; `none` models the constructor's
"Unknown tone map algorithm" failure. -/
def toneMapAlg : String → Option (ℚ → ℚ)
  | "clamp" => some clamp01
  | "reinhard" => some reinhardQ
  | "aces" => some acesQ
  | _ => none

/-- ToneMapper state after construction.  `exposureMul` stands for
`Math.pow(2, exposure)` and `gpow` for `Math.pow(·, invGamma)`; for the exact
configurations proved about below these coincide with the source. -/
structure ToneMapperQ where
  mapFn : ℚ → ℚ
  exposureMul : ℚ
  gpow : ℚ → ℚ
  outputDepth : ℕ

/-- `maxVal`: 65535 for 16-bit output, else 255. -/
def ToneMapperQ.maxVal (tm : ToneMapperQ) : ℕ :=
  if tm.outputDepth = 16 then 65535 else 255

/-- `mapValue`: exposure, then tone map, then gamma (no clamping here). -/
def ToneMapperQ.mapValue (tm : ToneMapperQ) (v : ℚ) : ℚ :=
  tm.gpow (tm.mapFn (v * tm.exposureMul))

/-- `quantize`: clamp to [0,1] and round to the output integer range. -/
def ToneMapperQ.quantize (tm : ToneMapperQ) (v : ℚ) : ℤ :=
  jsRound (clamp01 v * tm.maxVal)

/-- Entry `i` of the 4096-entry gamma LUT built inside `map` for 8-bit output:
`Math.round(Math.pow(i / LUT_SIZE, invGamma) * maxVal)` stored in a
`Uint8Array` (hence reduced mod 256). -/
def gammaLutVal (tm : ToneMapperQ) (i : ℕ) : ℕ :=
  (jsRound (tm.gpow ((i : ℚ) / 4096) * 255) % 256).toNat

/-- One RGB channel through the 8-bit LUT fast path of `map`:
tone map, clamp, index the LUT at `⌊mapped * 4096 + 0.5⌋`. -/
def lutChannel8 (tm : ToneMapperQ) (v : ℚ) : ℕ :=
  let mapped := tm.mapFn (v * tm.exposureMul)
  let m := clamp01 mapped
  gammaLutVal tm (Int.toNat ⌊m * 4096 + 1/2⌋)

/-- The direct computation path for one channel: `mapValue` then `quantize`. -/
def directChannel8 (tm : ToneMapperQ) (v : ℚ) : ℤ :=
  tm.quantize (tm.mapValue v)

/-- One RGB channel of the 16-bit path of `map` (no table): exposure, tone map,
`Math.pow`, clamp, round, stored in a `Uint16Array`. -/
def directChannel16 (tm : ToneMapperQ) (v : ℚ) : ℕ :=
  (jsRound (clamp01 (tm.gpow (tm.mapFn (v * tm.exposureMul))) * tm.maxVal)
    % 65536).toNat

/-- The alpha channel of `map`: clamp and quantize directly, no exposure, tone
mapping or gamma; stored in the output array of the configured depth. -/
def alphaChannel (tm : ToneMapperQ) (a : ℚ) : ℕ :=
  (jsRound (clamp01 a * tm.maxVal) % (tm.maxVal + 1)).toNat

/-- The 8-bit hot loop of `map` over the flat RGBA data. -/
def tmMap8 (tm : ToneMapperQ) : List ℚ → List ℕ
  | r :: g :: b :: a :: rest =>
    lutChannel8 tm r :: lutChannel8 tm g :: lutChannel8 tm b ::
      alphaChannel tm a :: tmMap8 tm rest
  | _ => []

/-- The 16-bit loop of `map` (uses `Math.pow` per pixel, no LUT). -/
def tmMap16 (tm : ToneMapperQ) : List ℚ → List ℕ
  | r :: g :: b :: a :: rest =>
    directChannel16 tm r :: directChannel16 tm g :: directChannel16 tm b ::
      alphaChannel tm a :: tmMap16 tm rest
  | _ => []

/-- `ToneMapper.map(input)`: the LUT fast path for 8-bit output, the direct
path otherwise. -/
def ToneMapperQ.map (tm : ToneMapperQ) (input : ColorBuffer) : List ℕ :=
  if tm.outputDepth = 8 then tmMap8 tm input.data else tmMap16 tm input.data

/-- The ToneMapper constructor checks: unknown algorithm, `gamma <= 0`,
output depth not 8 or 16. -/
def ToneMapperQ.ofOptions (algorithm : String) (exposureMul gamma : ℚ)
    (gpow : ℚ → ℚ) (outputDepth : ℕ) : Except String ToneMapperQ :=
  match toneMapAlg algorithm with
  | none => .error "Unknown tone map algorithm"
  | some fn =>
    if gamma ≤ 0 then .error "Gamma must be positive"
    else if outputDepth ≠ 8 ∧ outputDepth ≠ 16 then
      .error "Output depth must be 8 or 16"
    else .ok ⟨fn, exposureMul, gpow, outputDepth⟩

/-! ## PNGExporter (src/export/PNGExporter.ts) -/

/-- `dpiToPixelsPerMeter(dpi) = Math.round(dpi / 0.0254)`. -/
def dpiToPixelsPerMeter (dpi : ℚ) : ℤ := jsRound (dpi / (254/10000))

/-- `DataView.setUint32` coerces its argument to an unsigned 32-bit integer:
reduction mod 2^32 (for integral arguments). -/
def toUint32 (z : ℤ) : ℕ := (z % 2 ^ 32).toNat

/-- Big-endian bytes of a 32-bit value. -/
def be32 (n : ℕ) : List ℕ :=
  [n / 2 ^ 24 % 256, n / 2 ^ 16 % 256, n / 2 ^ 8 % 256, n % 256]

/-- Big-endian decoding, to read 4-byte fields back. -/
def be32val (l : List ℕ) : ℕ := l.foldl (fun acc b => acc * 256 + b) 0

/-- One shift step of the CRC_TABLE generation loop:
`c = c & 1 ? 0xedb88320 ^ (c >>> 1) : c >>> 1`. -/
def crcStep (c : ℕ) : ℕ :=
  if c &&& 1 = 1 then 0xedb88320 ^^^ (c >>> 1) else c >>> 1

/-- Eight shift steps. -/
def crcStep8 (c : ℕ) : ℕ :=
  crcStep (crcStep (crcStep (crcStep (crcStep (crcStep (crcStep (crcStep c)))))))

/-- `CRC_TABLE[n]`: `n` run through eight shift steps. -/
def crcTable (n : ℕ) : ℕ := crcStep8 n

/-- `crc32(data)`: table-driven update
`crc = CRC_TABLE[(crc ^ data[i]) & 0xff] ^ (crc >>> 8)` from 0xffffffff,
complemented at the end. -/
def crc32 (data : List ℕ) : ℕ :=
  (data.foldl
    (fun crc b => crcTable ((crc ^^^ b) &&& 0xff) ^^^ (crc >>> 8))
    0xffffffff) ^^^ 0xffffffff

/-- The specification's CRC-32: bit-by-bit with the reflected polynomial
0xEDB88320, initial and final value 0xFFFFFFFF (each byte XORed into the
running value, then eight polynomial shift steps).  Compared against the
table-driven `crc32` below. -/
def crc32_direct (data : List ℕ) : ℕ :=
  (data.foldl (fun crc b => crcStep8 (crc ^^^ b)) 0xffffffff) ^^^ 0xffffffff

/-- The 4-byte chunk type tag "pHYs". -/
def physTag : List ℕ := [0x70, 0x48, 0x59, 0x73]

/-- The 8-byte PNG signature. -/
def pngSignature : List ℕ := [0x89, 0x50, 0x4e, 0x47, 0x0d, 0x0a, 0x1a, 0x0a]

/-- `buildPHYsChunk(dpi)`: 21 bytes — big-endian length 9, "pHYs", X and Y
pixels-per-meter (via `setUint32`), unit byte 1, and the CRC over bytes 4–16. -/
def buildPHYsChunk (dpi : ℚ) : List ℕ :=
  let ppm := toUint32 (dpiToPixelsPerMeter dpi)
  let dataBytes := be32 ppm ++ be32 ppm ++ [1]
  be32 9 ++ physTag ++ dataBytes ++ be32 (crc32 (physTag ++ dataBytes))

/-- `injectPHYs(png, dpi)`: reject unless bytes 0–3 are 0x89 'P' 'N' 'G'
(`png[k]` of a too-short array is `undefined`, hence `none`, and fails the
comparison); otherwise splice the pHYs chunk after byte 33
(signature 8 + IHDR 25). -/
def injectPHYs (png : List ℕ) (dpi : ℚ) : Except String (List ℕ) :=
  if png.get? 0 ≠ some 0x89 ∨ png.get? 1 ≠ some 0x50 ∨
     png.get? 2 ≠ some 0x4e ∨ png.get? 3 ≠ some 0x47 then
    .error "Not a valid PNG file"
  else
    .ok (png.take 33 ++ buildPHYsChunk dpi ++ png.drop 33)

/-- `PNGExporter.export`: dimension, dpi, length and array-type checks, then
encode (the external `fast-png` encoder is the parameter `encodeFn`, given
width, height, data and depth) and inject the pHYs chunk.  `elemWidth` is the
element width of the typed array handed in (8 for `Uint8Array`, 16 for
`Uint16Array`); the result records the depth handed to the encoder. -/
def pngExport (data : List ℕ) (elemWidth : ℕ) (width height : ℕ) (dpi : ℚ)
    (depth : ℕ) (encodeFn : ℕ → ℕ → List ℕ → ℕ → List ℕ) :
    Except String (List ℕ × ℕ) :=
  if width = 0 ∨ height = 0 then .error "Invalid dimensions"
  else if dpi ≤ 0 then .error "DPI must be positive"
  else if data.length ≠ width * height * 4 then .error "Data length mismatch"
  else if depth = 16 ∧ elemWidth ≠ 16 then
    .error "16-bit depth requires Uint16Array input"
  else if depth = 8 ∧ elemWidth ≠ 8 then
    .error "8-bit depth requires Uint8Array input"
  else
    (injectPHYs (encodeFn width height data depth) dpi).map (fun bytes => (bytes, depth))

/-! ## ExportPipeline (src/export/ExportPipeline.ts) -/

/-- The options of `exportBuffer`, with the source defaults;
`exposureMul`/`gamma`/`gpow` as in `ToneMapperQ`. -/
structure ExportPipelineOptionsQ where
  toneMap : String := "reinhard"
  exposureMul : ℚ := 1
  gamma : ℚ := 11/5
  gpow : ℚ → ℚ
  format : String := "png"
  dpi : ℚ

/-- The observable outcome of a successful `exportBuffer` run: the final
bytes, the sequence of percentages reported to the progress callback, the
output depth of the ToneMapper that was constructed, and the bit depth handed
to the PNG encoder. -/
structure ExportRunQ where
  bytes : List ℕ
  progress : List ℚ
  toneDepth : ℕ
  encodeDepth : ℕ
deriving DecidableEq, Repr

/-- `exportBuffer(buffer, options)`: format check; `onProgress(0)`; construct
the ToneMapper with `outputDepth: 8`; map; `onProgress(50)`; PNG export at
`depth: 8`; `onProgress(90)`; blob; `onProgress(100)`.  A failing step aborts
before the later emissions; the recorded trace is that of a successful run. -/
def exportBuffer (buffer : ColorBuffer) (opts : ExportPipelineOptionsQ)
    (encodeFn : ℕ → ℕ → List ℕ → ℕ → List ℕ) : Except String ExportRunQ :=
  if opts.format ≠ "png" then .error "Unsupported export format"
  else
    (ToneMapperQ.ofOptions opts.toneMap opts.exposureMul opts.gamma opts.gpow 8).bind
      (fun tm =>
        let ldrData := tm.map buffer
        (pngExport ldrData 8 buffer.width buffer.height opts.dpi 8 encodeFn).map
          (fun res =>
            { bytes := res.1
              progress := [0, 50, 90, 100]
              toneDepth := tm.outputDepth
              encodeDepth := res.2 }))

/-- A concrete 1×1 transparent-black buffer used to witness the export
pipeline contracts. -/
def wBufC9 : ColorBuffer := ⟨1, 1, 32, [0, 0, 0, 0]⟩

/-- Concrete export options (clamp, exposure 0, gamma 1, png, 300 dpi). -/
def wOptsC9 : ExportPipelineOptionsQ :=
  { toneMap := "clamp", exposureMul := 1, gamma := 1, gpow := fun x => x ^ (1:ℕ),
    format := "png", dpi := 300 }

/-- A stand-in encoder producing a minimal signature-plus-IHDR byte string. -/
def wEncC9 : ℕ → ℕ → List ℕ → ℕ → List ℕ :=
  fun _ _ _ _ => pngSignature ++ List.replicate 25 0

/-- The run produced by `exportBuffer` on the witness inputs. -/
def wRunC9 : ExportRunQ :=
  { bytes := pngSignature ++ List.replicate 25 0 ++ buildPHYsChunk 300
    progress := [0, 50, 90, 100]
    toneDepth := 8
    encodeDepth := 8 }

/-! ## List helper lemmas -/

theorem getD_set_self {l : List ℚ} {i : ℕ} (h : i < l.length) (v d : ℚ) :
    (l.set i v).getD i d = v := by
  simp [List.getD_eq_getElem?_getD, List.getElem?_set_self h]

theorem getD_set_ne {l : List ℚ} {i j : ℕ} (h : i ≠ j) (v d : ℚ) :
    (l.set i v).getD j d = l.getD j d := by
  simp [List.getD_eq_getElem?_getD, List.getElem?_set_ne h]

theorem set_getD_self : ∀ (l : List ℚ) (i : ℕ) (d : ℚ), l.set i (l.getD i d) = l
  | [], _, _ => rfl
  | _ :: _, 0, _ => rfl
  | x :: xs, i+1, d => by
    simpa [List.set, List.getD] using congrArg (x :: ·) (set_getD_self xs i d)

/-! ## Float-store lemmas -/

/-- Uniqueness characterization of the binary logarithm used by `fl32`. -/
theorem int_log2_eq {q : ℚ} {k : ℤ} (hq : 0 < q) (h1 : ((2:ℕ):ℚ) ^ k ≤ q)
    (h2 : q < ((2:ℕ):ℚ) ^ (k+1)) : Int.log 2 q = k := by
  rcases lt_trichotomy (Int.log 2 q) k with h | h | h
  · exfalso
    have hlt : q < ((2:ℕ):ℚ) ^ (Int.log 2 q + 1) :=
      Int.lt_zpow_succ_log_self (by norm_num) q
    have hle : ((2:ℕ):ℚ) ^ (Int.log 2 q + 1) ≤ ((2:ℕ):ℚ) ^ k := by
      apply zpow_le_zpow_right₀ (by norm_num)
      omega
    linarith
  · exact h
  · exfalso
    have hle2 : ((2:ℕ):ℚ) ^ (k+1) ≤ ((2:ℕ):ℚ) ^ (Int.log 2 q) := by
      apply zpow_le_zpow_right₀ (by norm_num)
      omega
    have hlog : ((2:ℕ):ℚ) ^ (Int.log 2 q) ≤ q := Int.zpow_log_le_self (by norm_num) hq
    linarith

theorem roundHalfEven_intCast (n : ℤ) : roundHalfEven (n : ℚ) = n := by
  rw [roundHalfEven, Int.floor_intCast]
  norm_num

theorem roundHalfEven_eq_of_gt {q : ℚ} {f : ℤ} (hf : ⌊q⌋ = f) (hr : 1/2 < q - f) :
    roundHalfEven q = f + 1 := by
  rw [roundHalfEven, hf, if_neg (by linarith), if_pos hr]

theorem fl32_zero : fl32 0 = 0 := by
  rw [fl32, if_pos rfl]

theorem fl32_one : fl32 1 = 1 := by
  rw [fl32, if_neg one_ne_zero, abs_one, Int.log_one_right,
    show (1:ℚ) * (2:ℚ) ^ ((23:ℤ) - 0) = ((8388608 : ℤ) : ℚ) from by norm_num,
    roundHalfEven_intCast]
  norm_num [zpow_sub₀]

/-- `fl32` at the binary64 value of the literal 0.1: the nearest binary32
value is 13421773 / 2^27 = 0.100000001490116119384765625. -/
theorem fl32_point_one :
    fl32 (3602879701896397 / 2 ^ 55) = 13421773 / 134217728 := by
  have hlog : Int.log 2 |(3602879701896397 / 2 ^ 55 : ℚ)| = -4 := by
    rw [show |(3602879701896397 / 2 ^ 55 : ℚ)| = 3602879701896397 / 2 ^ 55 from
      abs_of_pos (by norm_num)]
    exact int_log2_eq (by norm_num) (by norm_num) (by norm_num)
  rw [fl32, if_neg (by norm_num), hlog,
    show (3602879701896397 / 2 ^ 55 : ℚ) * 2 ^ ((23:ℤ) - -4) =
      3602879701896397 / 2 ^ 28 from by norm_num,
    roundHalfEven_eq_of_gt
      (show ⌊(3602879701896397 / 2 ^ 28 : ℚ)⌋ = 13421772 from by
        norm_num [Int.floor_eq_iff])
      (by norm_num)]
  norm_num [zpow_sub₀]

theorem storeVal_zero (d : ℕ) : storeVal d 0 = 0 := by
  rw [storeVal]
  split
  · exact fl32_zero
  · rfl

theorem storeVal_one (d : ℕ) : storeVal d 1 = 1 := by
  rw [storeVal]
  split
  · exact fl32_one
  · rfl

/-! ## blendAt lemmas -/

theorem blendAt_length (st : ℚ → ℚ) (mode : BlendMode) (data : List ℚ) (i : ℕ)
    (r g b a : ℚ) :
    (blendAt st mode data i r g b a).length = data.length := by
  simp only [blendAt]
  split <;> simp

theorem blendAt_getD_gt (st : ℚ → ℚ) (mode : BlendMode) (data : List ℚ) (i : ℕ)
    (r g b a : ℚ) {j : ℕ} (h : i + 3 < j) (d : ℚ) :
    (blendAt st mode data i r g b a).getD j d = data.getD j d := by
  simp only [blendAt]
  split <;>
    rw [getD_set_ne (by omega), getD_set_ne (by omega),
      getD_set_ne (by omega), getD_set_ne (by omega)]

/-- Blending a source with alpha exactly 0 onto a destination pixel whose
stored alpha is exactly 1 writes the destination values back unchanged.  On
this domain the source's binary64 evaluation is exact too: the alpha algebra
is `0 + 1*(1-0)` and each channel is `(blended*0 + dst*1*1)/1`, so only
multiplications by 0 and 1 and a division by 1 occur, and the written values
are the stored ones, which the store conversion fixes. -/
theorem blendAt_zero_alpha_one (st : ℚ → ℚ) (mode : BlendMode) (data : List ℚ)
    (i : ℕ) (r g b : ℚ)
    (hA : data.getD (i+3) 0 = 1) (hst1 : st 1 = 1)
    (hR : st (data.getD i 0) = data.getD i 0)
    (hG : st (data.getD (i+1) 0) = data.getD (i+1) 0)
    (hB : st (data.getD (i+2) 0) = data.getD (i+2) 0) :
    blendAt st mode data i r g b 0 = data := by
  simp only [blendAt, hA]
  rw [if_neg (by norm_num)]
  simp only [mul_zero, zero_add, sub_zero, mul_one, div_one]
  rw [hR, hG, hB, hst1]
  rw [set_getD_self, set_getD_self, set_getD_self, ← hA, set_getD_self]

/-- `alphaOneStored` at a later pixel survives a blend at an earlier one. -/
theorem alphaOneStored_blendAt (st : ℚ → ℚ) (mode : BlendMode) (depth : ℕ)
    (data : List ℚ) (i j : ℕ) (r g b a : ℚ) (h : i + 3 < j)
    (hp : alphaOneStored depth data j) :
    alphaOneStored depth (blendAt st mode data i r g b a) j := by
  obtain ⟨h1, h2, h3, h4⟩ := hp
  refine ⟨?_, ?_, ?_, ?_⟩
  · rw [blendAt_getD_gt st mode data i r g b a (by omega) 0]
    exact h1
  · rw [blendAt_getD_gt st mode data i r g b a (by omega) 0]
    exact h2
  · rw [blendAt_getD_gt st mode data i r g b a (by omega) 0]
    exact h3
  · rw [blendAt_getD_gt st mode data i r g b a (by omega) 0]
    exact h4

/-! ## Claims C1 and C2: the alpha-0 skip and the alpha-0 blend -/

/-- C2, counterexample: on a destination pixel with stored alpha 0 and nonzero
stored red, `blendPixel` with source alpha 0 resets the pixel to (0,0,0,0), so
the stored values change. -/
theorem C2_counterexample :
    (ColorBuffer.mk 1 1 32 [1, 0, 0, 0]).blendPixel 0 0 5 5 5 0 .normal =
      some (ColorBuffer.mk 1 1 32 [0, 0, 0, 0]) ∧
    ([1, 0, 0, 0] : List ℚ) ≠ [0, 0, 0, 0] := by
  constructor
  · simp [ColorBuffer.blendPixel, blendAt, List.getD]
  · simp

/-- C2 (amended): `blendPixel` with source alpha exactly 0 leaves the
destination pixel's stored values unchanged when the destination's stored
alpha is exactly 1 — a domain on which binary64 evaluation of the source's
arithmetic (multiplications by 0 and 1, division by 1) is exact, so the
rational model is faithful.  For destination alpha strictly between 0 and 1
the source rewrites each channel as `fl(fl(dstC*dstA)/dstA)`, a value-level
no-op that can perturb the stored value by one unit in the last place; when
the destination alpha is exactly 0 the pixel is reset to (0,0,0,0), so
nonzero stored RGB values are not preserved (see the counterexample). -/
theorem C2_blendPixel_alpha0 (buf : ColorBuffer) (x y : ℕ) (r g b : ℚ)
    (mode : BlendMode) (hx : x < buf.width) (hy : y < buf.height)
    (hA : alphaOneStored buf.depth buf.data ((y * buf.width + x) * 4)) :
    buf.blendPixel x y r g b 0 mode = some buf := by
  obtain ⟨h1, h2, h3, h4⟩ := hA
  unfold ColorBuffer.blendPixel
  rw [if_pos ⟨hx, hy⟩,
    blendAt_zero_alpha_one _ _ _ _ _ _ _ h1 (storeVal_one _) h2 h3 h4]

/-- C2, witness: a fully opaque destination (3, 4, 5, 1) in a Float64 buffer
is untouched by an alpha-0 additive blend. -/
theorem C2_witness :
    (ColorBuffer.mk 1 1 64 [3, 4, 5, 1]).blendPixel 0 0 9 9 9 0 .add =
      some (ColorBuffer.mk 1 1 64 [3, 4, 5, 1]) :=
  C2_blendPixel_alpha0 (ColorBuffer.mk 1 1 64 [3, 4, 5, 1]) 0 0 9 9 9 .add
    (by decide) (by decide)
    (by
      refine ⟨by norm_num [List.getD], ?_, ?_, ?_⟩ <;>
        norm_num [List.getD, storeVal])

/-- The generalised equivalence between the checked per-pixel sequence and the
`blendRowUnchecked` loop: provided every processed source pixel has nonzero
alpha or faces a destination pixel with stored alpha exactly 1 (and
store-fixed channels), the two paths produce the same buffer.  A non-skipped
pixel is processed by the identical `blendAt` body, on identical state, in
both paths, so no arithmetic fidelity is needed there; the skipped pixels are
covered by `blendAt_zero_alpha_one`, where binary64 evaluation is exact. -/
theorem blendSeq_eq_rowLoop (mode : BlendMode) (floats : List ℚ) (y : ℕ) :
    ∀ (n srcP startX : ℕ) (buf : ColorBuffer),
      y < buf.height → startX + n ≤ buf.width →
      (∀ p, p < n → floats.getD ((srcP + p) * 4 + 3) 0 ≠ 0 ∨
          alphaOneStored buf.depth buf.data ((y * buf.width + (startX + p)) * 4)) →
      blendPixelSeq mode floats y n srcP startX buf =
        some { buf with
          data := blendRowLoop (storeVal buf.depth) mode floats n srcP
            ((y * buf.width + startX) * 4) buf.data }
  | 0, srcP, startX, buf, _, _, _ => by
    simp [blendPixelSeq, blendRowLoop]
  | n+1, srcP, startX, buf, hy, hn, hok => by
    have hx : startX < buf.width := by omega
    rw [blendPixelSeq, ColorBuffer.blendPixel, if_pos ⟨hx, hy⟩, Option.some_bind]
    by_cases ha : floats.getD (srcP * 4 + 3) 0 = 0
    · have hdst : alphaOneStored buf.depth buf.data ((y * buf.width + startX) * 4) := by
        have h0 := hok 0 (by omega)
        simp only [Nat.add_zero] at h0
        rcases h0 with h0 | h0
        · exact (h0 ha).elim
        · exact h0
      rw [ha, blendAt_zero_alpha_one _ _ _ _ _ _ _ hdst.1 (storeVal_one _)
        hdst.2.1 hdst.2.2.1 hdst.2.2.2]
      have hrec := blendSeq_eq_rowLoop mode floats y n (srcP + 1) (startX + 1) buf hy
        (by omega)
        (fun p hp => by
          have h0 := hok (p + 1) (by omega)
          have e1 : srcP + (p + 1) = srcP + 1 + p := by omega
          have e2 : startX + (p + 1) = startX + 1 + p := by omega
          rw [e1, e2] at h0
          exact h0)
      rw [show ({ buf with data := buf.data } : ColorBuffer) = buf from rfl]
      rw [hrec]
      rw [blendRowLoop, if_pos ha]
      have harith : (y * buf.width + startX) * 4 + 4 = (y * buf.width + (startX + 1)) * 4 := by
        ring
      rw [harith]
    · set buf1 : ColorBuffer :=
        { buf with
          data := blendAt (storeVal buf.depth) mode buf.data
            ((y * buf.width + startX) * 4)
            (floats.getD (srcP * 4) 0) (floats.getD (srcP * 4 + 1) 0)
            (floats.getD (srcP * 4 + 2) 0) (floats.getD (srcP * 4 + 3) 0) } with hbuf1
      have hrec := blendSeq_eq_rowLoop mode floats y n (srcP + 1) (startX + 1) buf1 hy
        (by simp [hbuf1]; omega)
        (fun p hp => by
          have h0 := hok (p + 1) (by omega)
          rcases h0 with h0 | h0
          · left
            have : srcP + (p + 1) = srcP + 1 + p := by omega
            rwa [this] at h0
          · right
            have e2 : startX + (p + 1) = startX + 1 + p := by omega
            rw [e2] at h0
            have hidx : ((y * buf.width + startX) * 4) + 3 <
                (y * buf.width + (startX + 1 + p)) * 4 := by
              have : y * buf.width + startX < y * buf.width + (startX + 1 + p) := by
                omega
              omega
            show alphaOneStored buf1.depth buf1.data
              ((y * buf1.width + (startX + 1 + p)) * 4)
            simp only [hbuf1]
            exact alphaOneStored_blendAt _ _ _ _ _ _ _ _ _ _ hidx h0)
      rw [hrec]
      rw [blendRowLoop, if_neg ha]
      have harith : (y * buf.width + startX) * 4 + 4 = (y * buf.width + (startX + 1)) * 4 := by
        ring
      simp only [hbuf1]
      rw [harith]

/-- C1, counterexample: a single source pixel with alpha exactly 0 over a
destination pixel with stored alpha 0 and nonzero red.  The row path skips the
pixel and leaves (1,0,0,0); the checked `blendPixel` sequence runs the
`outA === 0` branch and zeroes the pixel — the buffers differ, so the skip is
not purely an optimization. -/
theorem C1_counterexample :
    ((ColorBuffer.mk 1 1 32 [1, 0, 0, 0]).blendRowUnchecked 0 0 1 [0, 0, 0, 0]
        .normal).data = [1, 0, 0, 0] ∧
    blendPixelSeq .normal [0, 0, 0, 0] 0 1 0 0 (ColorBuffer.mk 1 1 32 [1, 0, 0, 0]) =
      some (ColorBuffer.mk 1 1 32 [0, 0, 0, 0]) ∧
    ([1, 0, 0, 0] : List ℚ) ≠ [0, 0, 0, 0] := by
  refine ⟨?_, ?_, by simp⟩
  · simp [ColorBuffer.blendRowUnchecked, blendRowLoop, List.getD]
  · simp [blendPixelSeq, ColorBuffer.blendPixel, blendAt, List.getD]

/-- C1 (amended): for in-bounds, non-degenerate inputs, `blendRowUnchecked`
produces exactly the buffer of the equivalent sequence of checked `blendPixel`
calls, provided every source pixel whose alpha is exactly 0 faces a
destination pixel whose stored alpha is exactly 1 (and whose stored channels
are fixed points of the store conversion, as every actually-stored value is).
On that domain the skipped `blendPixel` call is an exact no-op even in
floating point: its arithmetic is only multiplications by 0 and 1 and a
division by 1.  Outside it the skip changes the result: over a destination
with alpha strictly between 0 and 1 the checked call rewrites each channel as
`fl(fl(dstC*dstA)/dstA)`, perturbing the stored value by up to one unit in the
last place, and over a destination with alpha 0 the checked call zeroes the
pixel while the row path leaves it untouched (see the counterexample). -/
theorem C1_blendRow_eq_blendPixelSeq (buf : ColorBuffer) (y startX pixelCount : ℕ)
    (floats : List ℚ) (mode : BlendMode)
    (hy : y < buf.height) (hx : startX + pixelCount ≤ buf.width)
    (hok : ∀ p, p < pixelCount → floats.getD (p * 4 + 3) 0 ≠ 0 ∨
        alphaOneStored buf.depth buf.data ((y * buf.width + (startX + p)) * 4)) :
    blendPixelSeq mode floats y pixelCount 0 startX buf =
      some (buf.blendRowUnchecked y startX pixelCount floats mode) := by
  have h := blendSeq_eq_rowLoop mode floats y pixelCount 0 startX buf hy hx
    (fun p hp => by simpa using hok p hp)
  rw [h]
  rfl

/-- C1, witness: a two-pixel source row (one transparent pixel, one
half-opaque) over an opaque destination row; the row path agrees with the
checked sequence. -/
theorem C1_witness :
    blendPixelSeq .normal [1, 0, 0, 0, 0, 1, 0, 1/2] 0 2 0 0
        (ColorBuffer.mk 2 1 32 [0, 0, 0, 1, 0, 0, 0, 1]) =
      some ((ColorBuffer.mk 2 1 32 [0, 0, 0, 1, 0, 0, 0, 1]).blendRowUnchecked
        0 0 2 [1, 0, 0, 0, 0, 1, 0, 1/2] .normal) :=
  C1_blendRow_eq_blendPixelSeq (ColorBuffer.mk 2 1 32 [0, 0, 0, 1, 0, 0, 0, 1])
    0 0 2 [1, 0, 0, 0, 0, 1, 0, 1/2] .normal (by decide) (by decide)
    (by
      intro p hp
      interval_cases p
      · right
        refine ⟨by norm_num [List.getD], ?_, ?_, ?_⟩ <;>
          norm_num [List.getD, storeVal_zero]
      · left
        norm_num [List.getD])

/-! ## Claim C6: set/get round trip and checked vs unchecked writes -/

theorem idx_bound {w h x y : ℕ} (hx : x < w) (hy : y < h) :
    (y * w + x) * 4 + 3 < w * h * 4 := by
  have h1 : y * w + x + 1 ≤ h * w := by
    have h2 : y * w + x + 1 ≤ y * w + w := by omega
    have h3 : y * w + w = (y + 1) * w := by ring
    have h4 : (y + 1) * w ≤ h * w := Nat.mul_le_mul_right w hy
    omega
  calc (y * w + x) * 4 + 3 < (y * w + x + 1) * 4 := by omega
    _ ≤ (h * w) * 4 := Nat.mul_le_mul_right 4 h1
    _ = w * h * 4 := by ring

/-- C6, counterexample: in a 32-bit buffer the stored channels are rounded to
Float32.  Writing the red value 3602879701896397/2^55 — the binary64 number
the literal `0.1` denotes — and reading it back yields
13421773/134217728 = 0.100000001490116119384765625, not the written value, so
`getPixel` after `setPixel` does not return the written RGBA exactly. -/
theorem C6_counterexample :
    ((ColorBuffer.mk 1 1 32 [0, 0, 0, 0]).setPixel 0 0
        (3602879701896397 / 2 ^ 55) 0 0 1).bind (fun b2 => b2.getPixel 0 0) =
      some ((13421773 : ℚ) / 134217728, 0, 0, 1) ∧
    ((13421773 : ℚ) / 134217728) ≠ 3602879701896397 / 2 ^ 55 := by
  constructor
  · rw [ColorBuffer.setPixel, if_pos ⟨one_pos, one_pos⟩, Option.some_bind]
    show (if (0:ℕ) < 1 ∧ (0:ℕ) < 1 then _ else _) = _
    rw [if_pos ⟨one_pos, one_pos⟩]
    simp only [ColorBuffer.setPixelUnchecked, storeVal, if_pos rfl,
      fl32_point_one, fl32_zero, fl32_one]
    norm_num [List.set, List.getD]
  · norm_num

/-- C6 (amended): for every buffer (either channel width), every in-bounds
pixel and every RGBA value, the checked `setPixel` produces exactly the buffer
of `setPixelUnchecked` on the same inputs, and `getPixel` immediately
afterwards returns the written values as converted by the buffer's store:
identically for a 64-bit buffer (where the typed-array store is a binary64
identity), and rounded to Float32 for a 32-bit buffer — exactly the written
values there only when each component is Float32-representable (see the
counterexample for 0.1). -/
theorem C6_set_get_roundtrip (buf : ColorBuffer) (x y : ℕ) (r g b a : ℚ)
    (hx : x < buf.width) (hy : y < buf.height)
    (hlen : buf.data.length = buf.width * buf.height * 4) :
    buf.setPixel x y r g b a = some (buf.setPixelUnchecked x y r g b a) ∧
    (buf.setPixelUnchecked x y r g b a).getPixel x y =
      some (storeVal buf.depth r, storeVal buf.depth g, storeVal buf.depth b,
        storeVal buf.depth a) ∧
    (buf.depth = 64 →
      (buf.setPixelUnchecked x y r g b a).getPixel x y = some (r, g, b, a)) := by
  have hlt : (y * buf.width + x) * 4 + 3 < buf.data.length := by
    rw [hlen]; exact idx_bound hx hy
  have hcore : (buf.setPixelUnchecked x y r g b a).getPixel x y =
      some (storeVal buf.depth r, storeVal buf.depth g, storeVal buf.depth b,
        storeVal buf.depth a) := by
    show (if x < buf.width ∧ y < buf.height then _ else _) = _
    rw [if_pos ⟨hx, hy⟩]
    simp only [ColorBuffer.setPixelUnchecked]
    rw [getD_set_ne (by omega), getD_set_ne (by omega), getD_set_ne (by omega),
      getD_set_self (by omega)]
    rw [getD_set_ne (by omega), getD_set_ne (by omega),
      getD_set_self (by simp; omega)]
    rw [getD_set_ne (by omega), getD_set_self (by simp; omega)]
    rw [getD_set_self (by simp; omega)]
  refine ⟨?_, hcore, ?_⟩
  · rw [ColorBuffer.setPixel, if_pos ⟨hx, hy⟩]
  · intro hd
    rw [hcore]
    simp [storeVal, hd]

/-- C6, witness: writing (2, -1/2, 7, 3/5) at (1, 0) of a 2×2 Float64
buffer: checked equals unchecked, and the read-back is exact. -/
theorem C6_witness :
    ((ColorBuffer.mk 2 2 64 (List.replicate 16 0)).setPixel 1 0 2 (-1/2) 7 (3/5) =
      some ((ColorBuffer.mk 2 2 64 (List.replicate 16 0)).setPixelUnchecked
        1 0 2 (-1/2) 7 (3/5))) ∧
    ((ColorBuffer.mk 2 2 64 (List.replicate 16 0)).setPixelUnchecked
        1 0 2 (-1/2) 7 (3/5)).getPixel 1 0 = some (2, -1/2, 7, 3/5) :=
  ⟨(C6_set_get_roundtrip (ColorBuffer.mk 2 2 64 (List.replicate 16 0)) 1 0
      2 (-1/2) 7 (3/5) (by decide) (by decide) (by decide)).1,
   (C6_set_get_roundtrip (ColorBuffer.mk 2 2 64 (List.replicate 16 0)) 1 0
      2 (-1/2) 7 (3/5) (by decide) (by decide) (by decide)).2.2 rfl⟩

/-! ## Claim C8: the built-in range-compression functions -/

theorem clamp01_nonneg (v : ℚ) : 0 ≤ clamp01 v := by
  rw [clamp01]
  split
  · exact le_refl 0
  · split
    · exact zero_le_one
    · linarith [not_lt.mp (by assumption : ¬ v < 0)]

theorem clamp01_le_one (v : ℚ) : clamp01 v ≤ 1 := by
  rw [clamp01]
  split
  · exact zero_le_one
  · split
    · exact le_refl 1
    · exact not_lt.mp (by assumption)

theorem clamp01_of_bounds {v : ℚ} (h0 : 0 ≤ v) (h1 : v ≤ 1) : clamp01 v = v := by
  rw [clamp01, if_neg (not_lt.mpr h0), if_neg (not_lt.mpr h1)]

/-- C8: `reinhard(0) = 0` and `reinhard(1) = 1/2` exactly, `aces(0) = 0`, both
functions land in [0,1] for every non-negative rational input, and both return
0 on every negative input. -/
theorem C8_range_compression :
    reinhardQ 0 = 0 ∧ reinhardQ 1 = 1/2 ∧ acesQ 0 = 0 ∧
    (∀ v : ℚ, 0 ≤ v → 0 ≤ reinhardQ v ∧ reinhardQ v ≤ 1) ∧
    (∀ v : ℚ, 0 ≤ v → 0 ≤ acesQ v ∧ acesQ v ≤ 1) ∧
    (∀ v : ℚ, v < 0 → reinhardQ v = 0 ∧ acesQ v = 0) := by
  refine ⟨by norm_num [reinhardQ], by norm_num [reinhardQ], by norm_num [acesQ],
    ?_, ?_, ?_⟩
  · intro v hv
    rw [reinhardQ, if_neg (not_lt.mpr hv)]
    constructor
    · positivity
    · rw [div_le_one (by linarith)]
      linarith
  · intro v hv
    simp only [acesQ]
    rw [if_neg (not_lt.mpr hv)]
    by_cases h1 : (v * (251/100 * v + 3/100)) / (v * (243/100 * v + 59/100) + 7/50) < 0
    · rw [if_pos h1]
      norm_num
    · rw [if_neg h1]
      by_cases h2 : 1 < (v * (251/100 * v + 3/100)) / (v * (243/100 * v + 59/100) + 7/50)
      · rw [if_pos h2]
        norm_num
      · rw [if_neg h2]
        exact ⟨not_lt.mp h1, not_lt.mp h2⟩
  · intro v hv
    constructor
    · rw [reinhardQ, if_pos hv]
    · simp only [acesQ]
      rw [if_pos hv]

/-- C8, witness: the bounds at the very large input 10^10 and the clamp at the
negative input -1. -/
theorem C8_witness :
    (0 ≤ reinhardQ (10^10) ∧ reinhardQ (10^10) ≤ 1) ∧
    (0 ≤ acesQ (10^10) ∧ acesQ (10^10) ≤ 1) ∧
    (reinhardQ (-1) = 0 ∧ acesQ (-1) = 0) :=
  ⟨C8_range_compression.2.2.2.1 (10^10) (by norm_num),
   C8_range_compression.2.2.2.2.1 (10^10) (by norm_num),
   C8_range_compression.2.2.2.2.2 (-1) (by norm_num)⟩

/-! ## Evaluation helpers for the tone-map pipeline -/

/-- Evaluate one channel of the 8-bit LUT path from precomputed pieces. -/
theorem lutChannel8_concrete (tm : ToneMapperQ) (v m : ℚ) (i : ℕ) (z : ℤ)
    (hm : clamp01 (tm.mapFn (v * tm.exposureMul)) = m)
    (hi : ⌊m * 4096 + 1/2⌋ = (i : ℤ))
    (hz : jsRound (tm.gpow ((i : ℚ) / 4096) * 255) = z)
    (hz0 : 0 ≤ z) (hz1 : z < 256) :
    lutChannel8 tm v = z.toNat := by
  simp only [lutChannel8, gammaLutVal, hm, hi, Int.toNat_natCast, hz]
  rw [Int.emod_eq_of_lt hz0 (by omega)]

/-- Evaluate one channel of the direct path from precomputed pieces. -/
theorem directChannel8_concrete (tm : ToneMapperQ) (v w : ℚ) (z : ℤ)
    (hw : clamp01 (tm.gpow (tm.mapFn (v * tm.exposureMul))) = w)
    (hz : jsRound (w * tm.maxVal) = z) :
    directChannel8 tm v = z := by
  simp only [directChannel8, ToneMapperQ.quantize, ToneMapperQ.mapValue, hw, hz]

/-! ## Claim C7: concrete pixel through map, and the alpha channel -/

/-- C7: with the clamp algorithm, gamma 1 and exposure 0 at 8-bit depth,
`map` of the single pixel (1/2, 1/4, 3/4, 1) is exactly (128, 64, 191, 255);
and for every 8-bit configuration the alpha channel of `map` is
`round(clamp01(a) * 255)` — no exposure, range compression or gamma. -/
theorem C7_clamp_gamma1_pixel :
    (ToneMapperQ.mk clamp01 1 (fun x => x ^ (1:ℕ)) 8).map
        (ColorBuffer.mk 1 1 32 [1/2, 1/4, 3/4, 1]) = [128, 64, 191, 255] ∧
    (∀ tm : ToneMapperQ, tm.outputDepth = 8 → ∀ a : ℚ,
      alphaChannel tm a = (jsRound (clamp01 a * 255) % 256).toNat) := by
  constructor
  · have h1 : lutChannel8 (ToneMapperQ.mk clamp01 1 (fun x => x ^ (1:ℕ)) 8) (1/2) = 128 := by
      have h := lutChannel8_concrete (ToneMapperQ.mk clamp01 1 (fun x => x ^ (1:ℕ)) 8)
        (1/2) (1/2) 2048 128 (by norm_num [clamp01])
        (by norm_num [Int.floor_eq_iff]) (by norm_num [jsRound, Int.floor_eq_iff])
        (by norm_num) (by norm_num)
      simpa using h
    have h2 : lutChannel8 (ToneMapperQ.mk clamp01 1 (fun x => x ^ (1:ℕ)) 8) (1/4) = 64 := by
      have h := lutChannel8_concrete (ToneMapperQ.mk clamp01 1 (fun x => x ^ (1:ℕ)) 8)
        (1/4) (1/4) 1024 64 (by norm_num [clamp01])
        (by norm_num [Int.floor_eq_iff]) (by norm_num [jsRound, Int.floor_eq_iff])
        (by norm_num) (by norm_num)
      simpa using h
    have h3 : lutChannel8 (ToneMapperQ.mk clamp01 1 (fun x => x ^ (1:ℕ)) 8) (3/4) = 191 := by
      have h := lutChannel8_concrete (ToneMapperQ.mk clamp01 1 (fun x => x ^ (1:ℕ)) 8)
        (3/4) (3/4) 3072 191 (by norm_num [clamp01])
        (by norm_num [Int.floor_eq_iff]) (by norm_num [jsRound, Int.floor_eq_iff])
        (by norm_num) (by norm_num)
      simpa using h
    have h4 : alphaChannel (ToneMapperQ.mk clamp01 1 (fun x => x ^ (1:ℕ)) 8) 1 = 255 := by
      rw [alphaChannel, ToneMapperQ.maxVal]
      norm_num [clamp01, jsRound, Int.floor_eq_iff]
      decide
    simp only [ToneMapperQ.map, tmMap8, h1, h2, h3, h4, if_true]
  · intro tm h a
    rw [alphaChannel, ToneMapperQ.maxVal, h]
    norm_num

/-- C7, witness: the alpha formula instantiated at an 8-bit configuration and
alpha 3/4 (which quantizes to 191). -/
theorem C7_witness :
    alphaChannel (ToneMapperQ.mk clamp01 1 (fun x => x ^ (1:ℕ)) 8) (3/4) =
      (jsRound (clamp01 (3/4) * 255) % 256).toNat :=
  C7_clamp_gamma1_pixel.2 (ToneMapperQ.mk clamp01 1 (fun x => x ^ (1:ℕ)) 8) rfl (3/4)

/-! ## Claim C5: the 4096-entry gamma LUT versus the direct path -/

/-- On [0,1] the n-th power is n-Lipschitz. -/
theorem abs_pow_sub_pow_le (x y : ℚ) (hx0 : 0 ≤ x) (hx1 : x ≤ 1)
    (hy0 : 0 ≤ y) (hy1 : y ≤ 1) :
    ∀ n : ℕ, |x ^ n - y ^ n| ≤ n * |x - y|
  | 0 => by simp
  | n+1 => by
    have ih := abs_pow_sub_pow_le x y hx0 hx1 hy0 hy1 n
    have hxa : |x| ≤ 1 := abs_le.mpr ⟨by linarith, hx1⟩
    have hyn : |y ^ n| ≤ 1 := by
      rw [abs_pow]
      exact pow_le_one₀ (abs_nonneg y) (abs_le.mpr ⟨by linarith, hy1⟩)
    have key : x ^ (n+1) - y ^ (n+1) = x * (x ^ n - y ^ n) + y ^ n * (x - y) := by
      ring
    calc |x ^ (n+1) - y ^ (n+1)|
        = |x * (x ^ n - y ^ n) + y ^ n * (x - y)| := by rw [key]
      _ ≤ |x * (x ^ n - y ^ n)| + |y ^ n * (x - y)| := abs_add _ _
      _ = |x| * |x ^ n - y ^ n| + |y ^ n| * |x - y| := by rw [abs_mul, abs_mul]
      _ ≤ 1 * ((n : ℚ) * |x - y|) + 1 * |x - y| := by
          apply add_le_add
          · exact mul_le_mul hxa ih (abs_nonneg _) zero_le_one
          · exact mul_le_mul_of_nonneg_right hyn (abs_nonneg _)
      _ = ((n + 1 : ℕ) : ℚ) * |x - y| := by push_cast; ring

theorem jsRound_nonneg {q : ℚ} (h : 0 ≤ q) : 0 ≤ jsRound q :=
  Int.le_floor.mpr (by push_cast; linarith)

theorem jsRound_le_255 {q : ℚ} (h : q ≤ 255) : jsRound q ≤ 255 := by
  have h2 : (⌊(255:ℚ) + 1/2⌋ : ℤ) = 255 := by norm_num [Int.floor_eq_iff]
  rw [jsRound]
  calc ⌊q + 1/2⌋ ≤ ⌊(255:ℚ) + 1/2⌋ := Int.floor_le_floor (by linarith)
    _ = 255 := h2

/-- Two values within 1/2 of each other round to integers within 1. -/
theorem jsRound_diff_le_one {A B : ℚ} (h : |A - B| ≤ 1/2) :
    |jsRound A - jsRound B| ≤ 1 := by
  obtain ⟨h1, h2⟩ := abs_le.mp h
  have hA : jsRound A ≤ jsRound B + 1 := by
    rw [jsRound, jsRound]
    calc ⌊A + 1/2⌋ ≤ ⌊(B + 1/2) + 1⌋ := Int.floor_le_floor (by linarith)
      _ = ⌊B + 1/2⌋ + 1 := Int.floor_add_one _
  have hB : jsRound B ≤ jsRound A + 1 := by
    rw [jsRound, jsRound]
    calc ⌊B + 1/2⌋ ≤ ⌊(A + 1/2) + 1⌋ := Int.floor_le_floor (by linarith)
      _ = ⌊A + 1/2⌋ + 1 := Int.floor_add_one _
  rw [abs_le]
  omega

/-- C5 (amended): for 8-bit output configurations whose tone-map function
lands in [0,1] (as all the built-ins do) and whose gamma is the reciprocal of
an integer g with 1 ≤ g ≤ 16 — so that the gamma exponent is the exactly
representable x ↦ x^g — the LUT path of `map` differs from the direct path
(`mapValue` then `quantize`) by at most 1.  For steeper gamma exponents the
difference exceeds 1 (see the counterexample, where it reaches 4). -/
theorem C5_lut_within_one (tm : ToneMapperQ) (g : ℕ) (v : ℚ)
    (hd : tm.outputDepth = 8) (hg1 : 1 ≤ g) (hg16 : g ≤ 16)
    (hgpow : tm.gpow = fun x => x ^ g)
    (hfn : ∀ u : ℚ, 0 ≤ tm.mapFn u ∧ tm.mapFn u ≤ 1) :
    |((lutChannel8 tm v : ℕ) : ℤ) - directChannel8 tm v| ≤ 1 := by
  obtain ⟨hm0, hm1⟩ := hfn (v * tm.exposureMul)
  set m := tm.mapFn (v * tm.exposureMul) with hmdef
  have hclamp : clamp01 m = m := clamp01_of_bounds hm0 hm1
  set I : ℤ := ⌊m * 4096 + 1/2⌋ with hIdef
  have hI0 : 0 ≤ I := Int.le_floor.mpr (by push_cast; linarith)
  have hIle : (I : ℚ) ≤ m * 4096 + 1/2 := Int.floor_le _
  have hIgt : m * 4096 + 1/2 < I + 1 := Int.lt_floor_add_one _
  have hI4096 : I ≤ 4096 := by
    have hle : m * 4096 + 1/2 ≤ (4096:ℚ) + 1/2 := by nlinarith
    rw [hIdef]
    calc ⌊m * 4096 + 1/2⌋ ≤ ⌊(4096:ℚ) + 1/2⌋ := Int.floor_le_floor hle
      _ = 4096 := by norm_num [Int.floor_eq_iff]
  have hIcast : ((I.toNat : ℕ) : ℚ) = (I : ℚ) := by
    exact_mod_cast Int.toNat_of_nonneg hI0
  set u : ℚ := ((I.toNat : ℕ) : ℚ) / 4096 with hudef
  have hu0 : 0 ≤ u := by positivity
  have hu1 : u ≤ 1 := by
    rw [hudef, hIcast, div_le_one (by norm_num)]
    exact_mod_cast hI4096
  have hum : |u - m| ≤ 1/8192 := by
    rw [abs_le]
    constructor
    · rw [hudef, hIcast]
      nlinarith
    · rw [hudef, hIcast]
      nlinarith
  have hup0 : (0:ℚ) ≤ u ^ g := pow_nonneg hu0 g
  have hup1 : u ^ g ≤ 1 := pow_le_one₀ hu0 hu1
  have hmp0 : (0:ℚ) ≤ m ^ g := pow_nonneg hm0 g
  have hmp1 : m ^ g ≤ 1 := pow_le_one₀ hm0 hm1
  have hz0 : 0 ≤ jsRound (u ^ g * 255) := jsRound_nonneg (by positivity)
  have hz1 : jsRound (u ^ g * 255) ≤ 255 := jsRound_le_255 (by nlinarith)
  have hlut : ((lutChannel8 tm v : ℕ) : ℤ) = jsRound (u ^ g * 255) := by
    simp only [lutChannel8, gammaLutVal, hclamp, ← hmdef, ← hIdef, hgpow, ← hudef]
    rw [Int.emod_eq_of_lt hz0 (by omega), Int.toNat_of_nonneg hz0]
  have hdirect : directChannel8 tm v = jsRound (m ^ g * 255) := by
    simp only [directChannel8, ToneMapperQ.quantize, ToneMapperQ.mapValue, hgpow,
      ← hmdef]
    rw [clamp01_of_bounds hmp0 hmp1, ToneMapperQ.maxVal, hd]
    norm_num
  rw [hlut, hdirect]
  apply jsRound_diff_le_one
  have hpows : |u ^ g - m ^ g| ≤ (g : ℚ) * |u - m| :=
    abs_pow_sub_pow_le u m hu0 hu1 hm0 hm1 g
  have hgcast : ((g : ℕ) : ℚ) ≤ 16 := by exact_mod_cast hg16
  calc |u ^ g * 255 - m ^ g * 255| = |u ^ g - m ^ g| * 255 := by
        rw [show u ^ g * 255 - m ^ g * 255 = (u ^ g - m ^ g) * 255 by ring,
          abs_mul]
        norm_num
    _ ≤ ((g : ℚ) * (1/8192)) * 255 := by
        apply mul_le_mul_of_nonneg_right _ (by norm_num)
        calc |u ^ g - m ^ g| ≤ (g : ℚ) * |u - m| := hpows
          _ ≤ (g : ℚ) * (1/8192) := by
              apply mul_le_mul_of_nonneg_left hum
              positivity
    _ ≤ (16 * (1/8192)) * 255 := by nlinarith
    _ ≤ 1/2 := by norm_num

/-- C5, witness: the bound instantiated at gamma 1 (exponent 1) with the clamp
algorithm on input 1/3. -/
theorem C5_witness :
    |((lutChannel8 (ToneMapperQ.mk clamp01 1 (fun x => x ^ (1:ℕ)) 8) (1/3) : ℕ) : ℤ) -
      directChannel8 (ToneMapperQ.mk clamp01 1 (fun x => x ^ (1:ℕ)) 8) (1/3)| ≤ 1 :=
  C5_lut_within_one (ToneMapperQ.mk clamp01 1 (fun x => x ^ (1:ℕ)) 8) 1 (1/3)
    rfl (by decide) (by decide) rfl
    (fun u => ⟨clamp01_nonneg u, clamp01_le_one u⟩)

/-- C5, counterexample: with the clamp algorithm, zero exposure, 8-bit output
and gamma exponent 128 (gamma = 1/128, accepted by the constructor), the input
channel 8189/8192 hits LUT entry 4095 and yields 247, while the direct path
yields 243 — a difference of 4, refuting the ≤ 1 bound for arbitrary
configurations. -/
theorem C5_counterexample :
    lutChannel8 (ToneMapperQ.mk clamp01 1 (fun x => x ^ (128:ℕ)) 8) (8189/8192) = 247 ∧
    directChannel8 (ToneMapperQ.mk clamp01 1 (fun x => x ^ (128:ℕ)) 8) (8189/8192) = 243 ∧
    ¬ (|((247 : ℕ) : ℤ) - 243| ≤ 1) := by
  have hple : ((8189:ℚ)/8192) ^ (128:ℕ) ≤ 1 := by
    rw [div_pow, div_le_one (by positivity)]
    exact pow_le_pow_left₀ (by norm_num) (by norm_num) 128
  have hp0 : (0:ℚ) ≤ ((8189:ℚ)/8192) ^ (128:ℕ) := by positivity
  refine ⟨?_, ?_, by decide⟩
  · have h := lutChannel8_concrete (ToneMapperQ.mk clamp01 1 (fun x => x ^ (128:ℕ)) 8)
      (8189/8192) (8189/8192) 4095 247 (by norm_num [clamp01])
      (by norm_num [Int.floor_eq_iff])
      (by norm_num [jsRound, Int.floor_eq_iff])
      (by norm_num) (by norm_num)
    simpa using h
  · exact directChannel8_concrete (ToneMapperQ.mk clamp01 1 (fun x => x ^ (128:ℕ)) 8)
      (8189/8192) (((8189:ℚ)/8192) ^ (128:ℕ)) 243
      (by rw [show (ToneMapperQ.mk clamp01 1 (fun x => x ^ (128:ℕ)) 8).gpow
            ((ToneMapperQ.mk clamp01 1 (fun x => x ^ (128:ℕ)) 8).mapFn
              (8189/8192 * (ToneMapperQ.mk clamp01 1
                (fun x => x ^ (128:ℕ)) 8).exposureMul)) =
            ((8189:ℚ)/8192) ^ (128:ℕ) from by norm_num [clamp01]]
          exact clamp01_of_bounds hp0 hple)
      (by norm_num [jsRound, ToneMapperQ.maxVal, Int.floor_eq_iff])

/-! ## CRC-32: the table-driven update equals the bitwise specification -/

theorem shiftRight_xor_distrib (a b n : ℕ) :
    (a ^^^ b) >>> n = (a >>> n) ^^^ (b >>> n) := by
  apply Nat.eq_of_testBit_eq
  intro i
  simp [Nat.testBit_shiftRight, Nat.testBit_xor]

theorem xor_xor_cross (p x y : ℕ) : (p ^^^ x) ^^^ (p ^^^ y) = x ^^^ y := by
  apply Nat.eq_of_testBit_eq
  intro i
  simp only [Nat.testBit_xor]
  cases p.testBit i <;> cases x.testBit i <;> cases y.testBit i <;> rfl

theorem crcStep_xor (a b : ℕ) : crcStep (a ^^^ b) = crcStep a ^^^ crcStep b := by
  rw [crcStep, crcStep, crcStep, Nat.and_one_is_mod, Nat.and_one_is_mod,
    Nat.and_one_is_mod]
  by_cases ha : a % 2 = 1 <;> by_cases hb : b % 2 = 1
  · rw [if_pos ha, if_pos hb, if_neg (by rw [Nat.xor_mod_two_eq_one]; simp [ha, hb])]
    rw [shiftRight_xor_distrib, xor_xor_cross]
  · rw [if_pos ha, if_neg hb, if_pos (by rw [Nat.xor_mod_two_eq_one]; simp [ha, hb])]
    rw [shiftRight_xor_distrib, Nat.xor_assoc]
  · rw [if_neg ha, if_pos hb, if_pos (by rw [Nat.xor_mod_two_eq_one]; simp [ha, hb])]
    rw [shiftRight_xor_distrib, ← Nat.xor_assoc, Nat.xor_comm 0xedb88320 (a >>> 1),
      Nat.xor_assoc]
  · rw [if_neg ha, if_neg hb, if_neg (by rw [Nat.xor_mod_two_eq_one]; simp [ha, hb])]
    rw [shiftRight_xor_distrib]

theorem crcStep8_xor (a b : ℕ) : crcStep8 (a ^^^ b) = crcStep8 a ^^^ crcStep8 b := by
  simp [crcStep8, crcStep_xor]

theorem crcStep_two_mul (x : ℕ) : crcStep (2 * x) = x := by
  rw [crcStep, Nat.and_one_is_mod, if_neg (by omega)]
  rw [Nat.shiftRight_eq_div_pow]
  omega

theorem crcStep8_mul256 (x : ℕ) : crcStep8 (x * 256) = x := by
  rw [crcStep8]
  rw [show x * 256 = 2 * (x * 128) by ring, crcStep_two_mul,
    show x * 128 = 2 * (x * 64) by ring, crcStep_two_mul,
    show x * 64 = 2 * (x * 32) by ring, crcStep_two_mul,
    show x * 32 = 2 * (x * 16) by ring, crcStep_two_mul,
    show x * 16 = 2 * (x * 8) by ring, crcStep_two_mul,
    show x * 8 = 2 * (x * 4) by ring, crcStep_two_mul,
    show x * 4 = 2 * (x * 2) by ring, crcStep_two_mul,
    show x * 2 = 2 * x by ring, crcStep_two_mul]

theorem xor_low_high (x : ℕ) : (x % 256) ^^^ (x / 256 * 256) = x := by
  apply Nat.eq_of_testBit_eq
  intro i
  rw [Nat.testBit_xor]
  rw [show x % 256 = x % 2 ^ 8 by norm_num,
    show x / 256 * 256 = 2 ^ 8 * (x / 2 ^ 8) by rw [Nat.mul_comm]; norm_num]
  rw [Nat.testBit_mod_two_pow, Nat.testBit_mul_pow_two]
  rcases Nat.lt_or_ge i 8 with h | h
  · simp [h, Nat.not_le.mpr h]
  · have hnlt : ¬ i < 8 := Nat.not_lt.mpr h
    simp only [hnlt, h, ge_iff_le, decide_eq_true_eq, Bool.false_and, Bool.true_and,
      Bool.false_xor, decide_eq_false hnlt, decide_eq_true h]
    rw [show x / 2 ^ 8 = x >>> 8 from (Nat.shiftRight_eq_div_pow x 8).symm,
      Nat.testBit_shiftRight, show 8 + (i - 8) = i from by omega]
    simp

theorem crcStep8_split (x : ℕ) :
    crcStep8 x = crcStep8 (x &&& 0xff) ^^^ (x >>> 8) := by
  conv_lhs => rw [← xor_low_high x]
  rw [crcStep8_xor, crcStep8_mul256]
  rw [show (0xff : ℕ) = 2 ^ 8 - 1 by norm_num, Nat.and_pow_two_sub_one_eq_mod,
    Nat.shiftRight_eq_div_pow]

/-- The table-driven per-byte CRC update equals eight polynomial shift steps on
the byte XORed into the running value. -/
theorem crcUpdate_eq (crc b : ℕ) (hb : b < 256) :
    crcTable ((crc ^^^ b) &&& 0xff) ^^^ (crc >>> 8) = crcStep8 (crc ^^^ b) := by
  rw [crcTable, crcStep8_split (crc ^^^ b)]
  congr 1
  rw [shiftRight_xor_distrib,
    show b >>> 8 = 0 by rw [Nat.shiftRight_eq_div_pow]; omega,
    Nat.xor_zero]

theorem crcFold_eq (data : List ℕ) (h : ∀ b ∈ data, b < 256) : ∀ crc : ℕ,
    data.foldl (fun crc b => crcTable ((crc ^^^ b) &&& 0xff) ^^^ (crc >>> 8)) crc =
      data.foldl (fun crc b => crcStep8 (crc ^^^ b)) crc := by
  induction data with
  | nil => intro crc; rfl
  | cons b rest ih =>
    intro crc
    rw [List.foldl_cons, List.foldl_cons,
      crcUpdate_eq crc b (h b (List.mem_cons_self b rest)),
      ih (fun x hx => h x (List.mem_cons_of_mem b hx))]

/-- The table-driven `crc32` computes the reflected-polynomial CRC-32 of the
specification on byte data. -/
theorem crc32_eq_direct (data : List ℕ) (h : ∀ b ∈ data, b < 256) :
    crc32 data = crc32_direct data := by
  rw [crc32, crc32_direct, crcFold_eq data h]

/-! ## Claim C4: the pHYs chunk -/

theorem be32_mem_lt (n : ℕ) : ∀ b ∈ be32 n, b < 256 := by
  intro b hb
  simp only [be32, List.mem_cons, List.not_mem_nil, or_false] at hb
  rcases hb with h | h | h | h <;> rw [h] <;> exact Nat.mod_lt _ (by norm_num)

/-- C4, counterexample: at dpi = -1 the computed density is -39, but
`setUint32` wraps it to 2^32 - 39, so the 4 density bytes decode to 4294967257
rather than the claimed round(dpi / 0.0254) = -39.  (The same wrap occurs for
any dpi whose density falls outside [0, 2^32).) -/
theorem C4_counterexample :
    dpiToPixelsPerMeter (-1) = -39 ∧
    be32val (((buildPHYsChunk (-1)).drop 8).take 4) = 4294967257 ∧
    ((4294967257 : ℤ) ≠ (-39 : ℤ)) := by
  have hppm : dpiToPixelsPerMeter (-1) = -39 := by
    norm_num [dpiToPixelsPerMeter, jsRound, Int.floor_eq_iff]
  refine ⟨hppm, ?_, by decide⟩
  simp only [buildPHYsChunk, hppm]
  decide

/-- C4 (amended): for every dpi whose pixels-per-meter value
round(dpi / 0.0254) lies in [0, 2^32) — in particular every dpi in the
supported positive range — `buildPHYsChunk` returns exactly 21 bytes: the
big-endian length 9, the tag "pHYs", the big-endian density twice, the unit
byte 1, and the big-endian reflected-polynomial CRC-32 (initial/final value
0xFFFFFFFF) of the 13 bytes tag-plus-data; the density for dpi = 300 is 11811
and for dpi = 72 is 2835.  For densities outside [0, 2^32) the stored bytes
wrap (see the counterexample). -/
theorem C4_buildPHYsChunk_spec (dpi : ℚ)
    (h0 : 0 ≤ dpiToPixelsPerMeter dpi) (h1 : dpiToPixelsPerMeter dpi < 2 ^ 32) :
    (buildPHYsChunk dpi).length = 21 ∧
    buildPHYsChunk dpi =
      be32 9 ++ physTag ++
      be32 (dpiToPixelsPerMeter dpi).toNat ++ be32 (dpiToPixelsPerMeter dpi).toNat ++
      [1] ++
      be32 (crc32_direct (physTag ++ be32 (dpiToPixelsPerMeter dpi).toNat ++
        be32 (dpiToPixelsPerMeter dpi).toNat ++ [1])) ∧
    dpiToPixelsPerMeter 300 = 11811 ∧ dpiToPixelsPerMeter 72 = 2835 := by
  have hwrap : toUint32 (dpiToPixelsPerMeter dpi) = (dpiToPixelsPerMeter dpi).toNat := by
    rw [toUint32, Int.emod_eq_of_lt h0 (by exact_mod_cast h1)]
  have hbytes : ∀ b ∈ physTag ++ be32 (dpiToPixelsPerMeter dpi).toNat ++
      be32 (dpiToPixelsPerMeter dpi).toNat ++ [1], b < 256 := by
    intro b hb
    simp only [List.mem_append, List.mem_cons, List.not_mem_nil, or_false] at hb
    rcases hb with ((h | h) | h) | h
    · simp only [physTag, List.mem_cons, List.not_mem_nil, or_false] at h
      rcases h with h | h | h | h <;> omega
    · exact be32_mem_lt _ b h
    · exact be32_mem_lt _ b h
    · omega
  refine ⟨?_, ?_, ?_, ?_⟩
  · simp [buildPHYsChunk, be32, physTag]
  · simp only [buildPHYsChunk, hwrap]
    rw [crc32_eq_direct _ (by
      intro b hb
      apply hbytes
      simpa [List.append_assoc] using hb)]
    simp [List.append_assoc]
  · norm_num [dpiToPixelsPerMeter, jsRound, Int.floor_eq_iff]
  · norm_num [dpiToPixelsPerMeter, jsRound, Int.floor_eq_iff]

/-- C4, witness: the specification instantiated at dpi = 300 (density 11811,
within range). -/
theorem C4_witness :
    0 ≤ dpiToPixelsPerMeter 300 ∧ dpiToPixelsPerMeter 300 < 2 ^ 32 ∧
    (buildPHYsChunk 300).length = 21 := by
  have h300 : dpiToPixelsPerMeter 300 = 11811 := by
    norm_num [dpiToPixelsPerMeter, jsRound, Int.floor_eq_iff]
  refine ⟨by rw [h300]; norm_num, by rw [h300]; norm_num, ?_⟩
  exact (C4_buildPHYsChunk_spec 300 (by rw [h300]; norm_num)
    (by rw [h300]; norm_num)).1

/-! ## Claim C3: pHYs injection and the signature check -/

/-- The ToneMapper constructor hands its output depth through unchanged. -/
theorem ofOptions_depth (algorithm : String) (exposureMul gamma : ℚ)
    (gpow : ℚ → ℚ) (d : ℕ) (tm : ToneMapperQ)
    (h : ToneMapperQ.ofOptions algorithm exposureMul gamma gpow d = .ok tm) :
    tm.outputDepth = d := by
  rw [ToneMapperQ.ofOptions] at h
  cases halg : toneMapAlg algorithm with
  | none => rw [halg] at h; cases h
  | some fn =>
    rw [halg] at h
    dsimp only at h
    by_cases hg : gamma ≤ 0
    · rw [if_pos hg] at h; cases h
    · rw [if_neg hg] at h
      by_cases hd : d ≠ 8 ∧ d ≠ 16
      · rw [if_pos hd] at h; cases h
      · rw [if_neg hd] at h
        cases h
        rfl

/-- A successful PNG export records exactly the depth it was asked for. -/
theorem pngExport_depth (data : List ℕ) (elemWidth width height : ℕ) (dpi : ℚ)
    (depth : ℕ) (encodeFn : ℕ → ℕ → List ℕ → ℕ → List ℕ) (res : List ℕ × ℕ)
    (h : pngExport data elemWidth width height dpi depth encodeFn = .ok res) :
    res.2 = depth := by
  rw [pngExport] at h
  split at h
  · cases h
  split at h
  · cases h
  split at h
  · cases h
  split at h
  · cases h
  split at h
  · cases h
  cases hin : injectPHYs (encodeFn width height data depth) dpi with
  | error e => rw [hin] at h; cases h
  | ok bytes => rw [hin] at h; cases h; rfl

/-- Inversion of a successful `exportBuffer` run: the progress trace is
0, 50, 90, 100 and both recorded depths are 8. -/
theorem exportBuffer_ok (buffer : ColorBuffer) (opts : ExportPipelineOptionsQ)
    (encodeFn : ℕ → ℕ → List ℕ → ℕ → List ℕ) (r : ExportRunQ)
    (h : exportBuffer buffer opts encodeFn = .ok r) :
    r.progress = [0, 50, 90, 100] ∧ r.toneDepth = 8 ∧ r.encodeDepth = 8 := by
  rw [exportBuffer] at h
  by_cases hf : opts.format ≠ "png"
  · rw [if_pos hf] at h
    cases h
  · rw [if_neg hf] at h
    cases htm : ToneMapperQ.ofOptions opts.toneMap opts.exposureMul opts.gamma
        opts.gpow 8 with
    | error e => rw [htm] at h; cases h
    | ok tm =>
      rw [htm] at h
      simp only [Except.bind] at h
      cases hpng : pngExport (tm.map buffer) 8 buffer.width buffer.height
          opts.dpi 8 encodeFn with
      | error e => rw [hpng] at h; cases h
      | ok res =>
        rw [hpng] at h
        simp only [Except.map] at h
        cases h
        exact ⟨rfl, ofOptions_depth _ _ _ _ _ _ htm,
          pngExport_depth _ _ _ _ _ _ _ _ hpng⟩

/-- C9: every successful `exportBuffer` run with a progress callback reports
at least four checkpoints, monotonically non-decreasing, starting at 0 and
ending at 100 (concretely 0, 50, 90, 100). -/
theorem C9_export_progress (buffer : ColorBuffer) (opts : ExportPipelineOptionsQ)
    (encodeFn : ℕ → ℕ → List ℕ → ℕ → List ℕ) (r : ExportRunQ)
    (h : exportBuffer buffer opts encodeFn = .ok r) :
    4 ≤ r.progress.length ∧ r.progress.Chain' (· ≤ ·) ∧
    r.progress.head? = some 0 ∧ r.progress.getLast? = some 100 := by
  obtain ⟨hp, -, -⟩ := exportBuffer_ok buffer opts encodeFn r h
  rw [hp]
  refine ⟨by norm_num, ?_, rfl, rfl⟩
  norm_num [List.chain'_cons, List.chain'_singleton]

/-- C10: every export routed through `exportBuffer` constructs its ToneMapper
with output depth 8 and encodes the PNG at depth 8, regardless of the options
passed; 16-bit output is unreachable through this path. -/
theorem C10_export_depth8 (buffer : ColorBuffer) (opts : ExportPipelineOptionsQ)
    (encodeFn : ℕ → ℕ → List ℕ → ℕ → List ℕ) (r : ExportRunQ)
    (h : exportBuffer buffer opts encodeFn = .ok r) :
    r.toneDepth = 8 ∧ r.encodeDepth = 8 :=
  (exportBuffer_ok buffer opts encodeFn r h).2

/-- The concrete witness run: exporting the 1×1 transparent buffer through the
stand-in encoder succeeds and produces `wRunC9`. -/
theorem wRun_spec : exportBuffer wBufC9 wOptsC9 wEncC9 = .ok wRunC9 := by
  have hlut : lutChannel8 (ToneMapperQ.mk clamp01 1 (fun x => x ^ (1:ℕ)) 8) 0 = 0 := by
    have h := lutChannel8_concrete (ToneMapperQ.mk clamp01 1 (fun x => x ^ (1:ℕ)) 8)
      0 0 0 0 (by norm_num [clamp01]) (by norm_num [Int.floor_eq_iff])
      (by norm_num [jsRound, Int.floor_eq_iff]) (le_refl 0) (by norm_num)
    simpa using h
  have halpha : alphaChannel (ToneMapperQ.mk clamp01 1 (fun x => x ^ (1:ℕ)) 8) 0 = 0 := by
    rw [alphaChannel, ToneMapperQ.maxVal]
    norm_num [clamp01, jsRound, Int.floor_eq_iff]
  have hmap : (ToneMapperQ.mk clamp01 1 (fun x => x ^ (1:ℕ)) 8).map wBufC9 =
      [0, 0, 0, 0] := by
    simp only [ToneMapperQ.map, wBufC9, tmMap8, hlut, halpha, if_true]
  have htm : ToneMapperQ.ofOptions "clamp" 1 1 (fun x => x ^ (1:ℕ)) 8 =
      .ok (ToneMapperQ.mk clamp01 1 (fun x => x ^ (1:ℕ)) 8) := by
    rw [ToneMapperQ.ofOptions, show toneMapAlg "clamp" = some clamp01 from rfl]
    dsimp only
    rw [if_neg (by norm_num), if_neg (by simp)]
  rw [exportBuffer]
  simp only [wOptsC9, wBufC9]
  rw [if_neg (by simp), htm]
  simp only [Except.bind]
  rw [show wBufC9 = ColorBuffer.mk 1 1 32 [0, 0, 0, 0] from rfl] at hmap
  rw [hmap, pngExport]
  rw [if_neg (by simp), if_neg (by norm_num), if_neg (by simp), if_neg (by simp),
    if_neg (by simp)]
  simp only [wEncC9]
  rw [injectPHYs, if_neg (by decide)]
  have ht : List.take 33 (pngSignature ++ List.replicate 25 0) =
      pngSignature ++ List.replicate 25 0 := by decide
  have hd : List.drop 33 (pngSignature ++ List.replicate 25 0) = ([] : List ℕ) := by
    decide
  rw [ht, hd]
  simp only [Except.map]
  simp [wRunC9, List.append_assoc]

/-- C9, witness: the progress contract on the concrete witness run. -/
theorem C9_witness :
    4 ≤ wRunC9.progress.length ∧ wRunC9.progress.Chain' (· ≤ ·) ∧
    wRunC9.progress.head? = some 0 ∧ wRunC9.progress.getLast? = some 100 :=
  C9_export_progress wBufC9 wOptsC9 wEncC9 wRunC9 wRun_spec

/-- C10, witness: the depth contract on the concrete witness run. -/
theorem C10_witness : wRunC9.toneDepth = 8 ∧ wRunC9.encodeDepth = 8 :=
  C10_export_depth8 wBufC9 wOptsC9 wEncC9 wRunC9 wRun_spec

end HD
